import Mathlib

/-!
Shallow embedding of the sevino storage engine (src/services.rs, src/utils.rs,
src/models.rs) for verification of the specification's claims.

Modelling conventions:
* One bucket is modelled at a time (no operation of the engine touches two
  buckets; all maps in the source are keyed per bucket).  The bucket-existence
  check `self.storage.buckets.read().contains_key(bucket_name)` is modelled by
  the boolean argument `bucketExists`; the bucket name is the argument `b`.
* `HashMap` fields become association lists with `lookupA` / `insertA` /
  `eraseA`; a `Vec<String>` value keeps its push order.
* On-disk state is part of `Store`: `sidecars` models the JSON files under
  `.sevino.meta/objects/<id>.json`, `dataFiles` the raw data files at the
  sharded data path of an object id (the path is a function of the id alone,
  so the map is keyed by id).
* The hash functions are parameters: `oid` models
  `generate_object_id(bucket, key) = sha256_hex(bucket ++ ":" ++ key)` for the
  fixed bucket, `md5` models `md5_hex`.  The claims do not depend on the
  internals of SHA-256/MD5, only on determinism (and, where stated as a
  hypothesis, on freedom from collisions among the concrete ids involved).
* `chrono::Utc::now()` is the argument `now : Nat`; the version-id nonce of
  `generate_version_id` is the argument `vid` (unused: all modelled entry
  points pass `enable_versioning = false`).
* Each `anyhow!(...)` error site becomes one constructor of `SvError`
  carrying the data interpolated into the Rust format string.
* Bytes are `List Nat`; byte positions and `str::len` agree with the
  character-level model on ASCII data (UTF-8 multi-byte sizes are accounted
  for by `charSize` where `len()` is compared against a limit).
-/

/-- Association-list lookup, modelling `HashMap::get`. -/
def lookupA {α : Type} : List (String × α) → String → Option α
  | [], _ => none
  | (k, v) :: rest, key => if k = key then some v else lookupA rest key

/-- Association-list insert-or-replace, modelling `HashMap::insert`. -/
def insertA {α : Type} : List (String × α) → String → α → List (String × α)
  | [], key, v => [(key, v)]
  | (k, w) :: rest, key, v =>
      if k = key then (key, v) :: rest else (k, w) :: insertA rest key v

/-- Association-list removal, modelling `HashMap::remove`. -/
def eraseA {α : Type} : List (String × α) → String → List (String × α)
  | [], _ => []
  | (k, w) :: rest, key => if k = key then rest else (k, w) :: eraseA rest key

/-- models.rs `Object`. -/
structure Object where
  key : String
  bucket_name : String
  size : Nat
  content_type : String
  etag : String
  created_at : Nat
  last_modified : Nat
  user_metadata : List (String × String)
deriving DecidableEq

/-- models.rs `Object::new`: `created_at` and `last_modified` are both set to
the current time. -/
def Object.new (key bucket_name : String) (size : Nat) (content_type etag : String)
    (user_metadata : List (String × String)) (now : Nat) : Object :=
  ⟨key, bucket_name, size, content_type, etag, now, now, user_metadata⟩

/-- models.rs `ObjectMetadata` (the sidecar contents). -/
structure ObjectMetadata where
  key : String
  bucket_name : String
  size : Nat
  content_type : String
  etag : String
  created_at : Nat
  last_modified : Nat
  user_metadata : List (String × String)
  version_id : Option String
  is_delete_marker : Bool
  /-- A `u32` in the source.  Modelled as `Nat`; the single addition that can
  overflow, `reference_count += 1` at services.rs:835, carries an explicit
  wrap modulo `2^32` at its call site, and the decrement at services.rs:980
  is guarded by `> 0`, so it cannot underflow. -/
  reference_count : Nat
  data_holder_id : Option String
deriving DecidableEq

/-- models.rs `impl From<Object> for ObjectMetadata`. -/
def ObjectMetadata.ofObject (o : Object) : ObjectMetadata :=
  ⟨o.key, o.bucket_name, o.size, o.content_type, o.etag, o.created_at,
   o.last_modified, o.user_metadata, none, false, 0, none⟩

/-- services.rs `DeduplicationMode`. -/
inductive DeduplicationMode
  | Reject
  | Allow
  | Reference
deriving DecidableEq

/-- One constructor per `anyhow!` site reached by the modelled operations,
carrying the data interpolated into the Rust format string. -/
inductive SvError
  /-- `validate_object_key` / `validate_bucket_name` message (services.rs:572, 502). -/
  | invalidKey (msg : String)
  /-- "Bucket '{}' not found". -/
  | bucketNotFound (bucket : String)
  /-- "Content already exists with key '{}' (ETag: {}). ..." (services.rs:601). -/
  | contentExistsKey (key etag : String)
  /-- "Content already exists with keys: {}. ..." (services.rs:781). -/
  | contentExistsKeys (keys : List String)
  /-- "Duplicate object not found" (services.rs:830). -/
  | duplicateObjectNotFound
  /-- "Object '{}' not found in bucket '{}'". -/
  | objectNotFound (key bucket : String)
  /-- "Object metadata not found". -/
  | metadataNotFound
  /-- "Cannot delete object '{}' because it has {} reference(s). ..." (services.rs:987). -/
  | hasReferences (key : String) (count : Nat)
deriving DecidableEq

instance {ε α : Type} [DecidableEq ε] [DecidableEq α] : DecidableEq (Except ε α) := fun x y =>
  match x, y with
  | .ok a, .ok b =>
      if h : a = b then isTrue (by rw [h]) else isFalse (fun hh => by cases hh; exact h rfl)
  | .error a, .error b =>
      if h : a = b then isTrue (by rw [h]) else isFalse (fun hh => by cases hh; exact h rfl)
  | .ok _, .error _ => isFalse (fun hh => by cases hh)
  | .error _, .ok _ => isFalse (fun hh => by cases hh)

/-- The per-bucket state of `StorageService`: the two in-memory indexes of the
bucket plus its on-disk sidecar and data files. -/
structure Store where
  /-- `object_index[bucket]`: key to object id. -/
  objectIndex : List (String × String)
  /-- `etag_index[bucket]`: etag to object ids, in push order. -/
  etagIndex : List (String × List String)
  /-- `.sevino.meta/objects/<id>.json` files: id to parsed sidecar. -/
  sidecars : List (String × ObjectMetadata)
  /-- data files at the sharded path of an id: id to raw bytes. -/
  dataFiles : List (String × List Nat)
deriving DecidableEq

def Store.empty : Store := ⟨[], [], [], []⟩

/-- UTF-8 byte size of a character, modelling how Rust's `str::len` counts a
`char` (Lean `Char` excludes surrogates, so the four ranges are exact). -/
def charSize (c : Char) : Nat :=
  if c.toNat < 128 then 1
  else if c.toNat < 2048 then 2
  else if c.toNat < 65536 then 3
  else 4

/-- Rust `str::len` (byte length). -/
def byteLen (l : List Char) : Nat := (l.map charSize).sum

/-- Boolean prefix test on character lists. -/
def isPrefixB : List Char → List Char → Bool
  | [], _ => true
  | _ :: _, [] => false
  | a :: as, b :: bs => a = b && isPrefixB as bs

/-- Rust `str::find(&str)`: position of the first occurrence of `needle` in
`hay` (character position; equal to the byte position on ASCII data). -/
def findSub : List Char → List Char → Option Nat
  | _, [] => some 0
  | [], _ :: _ => none
  | h :: t, n :: ns =>
      if isPrefixB (n :: ns) (h :: t) then some 0
      else (findSub t (n :: ns)).map (· + 1)

/-- utils.rs `validate_object_key`: non-empty, at most 1024 bytes, and the
substring `..` does not occur. -/
def validate_object_key (key : String) : Except String Unit :=
  if key.toList = [] then .error "Object key cannot be empty"
  else if 1024 < byteLen key.toList then
    .error "Object key cannot be longer than 1024 characters"
  else if (findSub key.toList ['.', '.']).isSome then
    .error "Object key cannot contain '..'"
  else .ok ()

/-- utils.rs `validate_bucket_name`, parameterised by the character classes
`char::is_alphanumeric` (`isAlnum`) and `char::is_numeric` (`isNum`) of the
Rust standard library (both are Unicode-aware; every instantiation used below
agrees with them on the characters it is applied to). -/
def validate_bucket_name (isAlnum isNum : Char → Bool) (name : List Char) :
    Except String Unit :=
  match name with
  | [] => .error "Bucket name cannot be empty"
  | c0 :: _ =>
    if 63 < byteLen name then
      .error "Bucket name cannot be longer than 63 characters"
    else if !(name.all fun c => isAlnum c || c = '-') then
      .error "Bucket name can only contain alphanumeric characters and hyphens"
    else if c0 = '-' || name.getLastD 'x' = '-' then
      .error "Bucket name cannot start or end with a hyphen"
    else if isNum c0 then
      .error "Bucket name cannot start with a number"
    else .ok ()

/-- utils.rs `generate_etag`: the quoted MD5 hex of the data, with `md5`
standing for `md5_hex`. -/
def generate_etag (md5 : List Nat → String) (data : List Nat) : String :=
  "\"" ++ md5 data ++ "\""

/-- The characters of the final path component (after the last `/`), in
reverse order: `Path::file_name` of a path that has one. -/
def fileNameRev (n : String) : List Char :=
  n.toList.reverse.takeWhile (fun c => c ≠ '/')

/-- `Path::extension` on a reversed file name: the characters after the last
dot (returned reversed); `none` when there is no dot or the only dot is the
leading character of the file name. -/
def revExt : List Char → Option (List Char)
  | [] => none
  | c :: rest =>
      if c = '.' then (if rest = [] then none else some [])
      else (revExt rest).map (c :: ·)

/-- ASCII lower-casing of an extension, as `str::to_lowercase` acts on the
ASCII extensions `get_mime_type` recognises. -/
def extLower (key : String) : String :=
  match revExt (fileNameRev key) with
  | none => ""
  | some r => String.mk (r.reverse.map Char.toLower)

/-- utils.rs `get_mime_type`. -/
def get_mime_type (filename : String) : String :=
  match extLower filename with
  | "html" => "text/html"
  | "htm" => "text/html"
  | "css" => "text/css"
  | "js" => "application/javascript"
  | "json" => "application/json"
  | "xml" => "application/xml"
  | "txt" => "text/plain"
  | "pdf" => "application/pdf"
  | "jpg" => "image/jpeg"
  | "jpeg" => "image/jpeg"
  | "png" => "image/png"
  | "gif" => "image/gif"
  | "svg" => "image/svg+xml"
  | "ico" => "image/x-icon"
  | "zip" => "application/zip"
  | "tar" => "application/x-tar"
  | "gz" => "application/gzip"
  | "mp4" => "video/mp4"
  | "mp3" => "audio/mpeg"
  | "wav" => "audio/wav"
  | _ => "application/octet-stream"

/-- services.rs `find_object_id_by_key` (read of `object_index`). -/
def find_object_id_by_key (s : Store) (key : String) : Option String :=
  lookupA s.objectIndex key

/-- services.rs `add_object_to_index`. -/
def add_object_to_index (s : Store) (key object_id : String) : Store :=
  { s with objectIndex := insertA s.objectIndex key object_id }

/-- services.rs `remove_object_from_index` (the bucket-level pruning of the
outer map is invisible in the per-bucket projection). -/
def remove_object_from_index (s : Store) (key : String) : Store :=
  { s with objectIndex := eraseA s.objectIndex key }

/-- services.rs `add_etag_to_index`: `entry(etag).or_insert(Vec::new()).push(id)`. -/
def addEtagEntry (l : List (String × List String)) (etag object_id : String) :
    List (String × List String) :=
  insertA l etag ((lookupA l etag).getD [] ++ [object_id])

def add_etag_to_index (s : Store) (etag object_id : String) : Store :=
  { s with etagIndex := addEtagEntry s.etagIndex etag object_id }

/-- services.rs `remove_etag_from_index`: `retain(|id| id != object_id)` on the
vector, dropping the etag entry when it becomes empty. -/
def removeEtagEntry (l : List (String × List String)) (etag object_id : String) :
    List (String × List String) :=
  match lookupA l etag with
  | none => l
  | some ids =>
    let ids' := ids.filter (fun i => i ≠ object_id)
    if ids' = [] then eraseA l etag else insertA l etag ids'

def remove_etag_from_index (s : Store) (etag object_id : String) : Store :=
  { s with etagIndex := removeEtagEntry s.etagIndex etag object_id }

/-- services.rs `find_objects_by_etag`. -/
def find_objects_by_etag (s : Store) (etag : String) : List String :=
  (lookupA s.etagIndex etag).getD []

/-- services.rs `is_etag_exists`. -/
def is_etag_exists (s : Store) (etag : String) : Bool :=
  !(find_objects_by_etag s etag).isEmpty

/-- services.rs `load_object_metadata`: read `<id>.json` if it exists. -/
def load_object_metadata (s : Store) (object_id : String) : Option ObjectMetadata :=
  lookupA s.sidecars object_id

/-- services.rs `save_object_metadata`: write (create or overwrite) `<id>.json`. -/
def save_object_metadata (s : Store) (object_id : String) (m : ObjectMetadata) : Store :=
  { s with sidecars := insertA s.sidecars object_id m }

/-- services.rs `delete_object_metadata`: remove `<id>.json` if present. -/
def delete_object_metadata (s : Store) (object_id : String) : Store :=
  { s with sidecars := eraseA s.sidecars object_id }

/-- services.rs `put_object_with_versioning` (lines 563-678).  The three
stages are, in source order: the cross-key duplicate-content rejection
(589-608), the same-key idempotency fast path (611-632), and the fresh write
(634-677).  A stage whose `if let` fails to load a sidecar falls through to
the next stage, exactly as in the source. -/
def put_object_with_versioning (oid : String → String) (md5 : List Nat → String)
    (b : String) (bucketExists : Bool) (now : Nat) (vid : String) (s : Store)
    (key : String) (data : List Nat) (content_type : String)
    (user_metadata : List (String × String)) (enable_versioning : Bool) :
    Except SvError (Store × Object) :=
  match validate_object_key key with
  | .error e => .error (.invalidKey e)
  | .ok _ =>
  if bucketExists = false then .error (.bucketNotFound b) else
  let etag := generate_etag md5 data
  let mime := if content_type = "application/octet-stream" then get_mime_type key
              else content_type
  let dupCheck : Option SvError :=
    if is_etag_exists s etag then
      let existing := find_objects_by_etag s etag
      if existing.isEmpty then none
      else
        match existing with
        | [] => none
        | firstId :: _ =>
          match load_object_metadata s firstId with
          | some em => some (.contentExistsKey em.key etag)
          | none => none
    else none
  match dupCheck with
  | some e => .error e
  | none =>
  let fastPath : Option (Store × Object) :=
    match find_object_id_by_key s key with
    | some exId =>
      match load_object_metadata s exId with
      | some em =>
        if em.etag = etag then
          let updated := { em with last_modified := now, user_metadata := user_metadata }
          some (save_object_metadata s exId updated,
                Object.new key b updated.size updated.content_type updated.etag
                  updated.user_metadata now)
        else none
      | none => none
    | none => none
  match fastPath with
  | some r => .ok r
  | none =>
  let version_id : Option String := if enable_versioning then some vid else none
  let object := Object.new key b data.length mime etag user_metadata now
  let object_id := match version_id with
    | some v => oid key ++ "_" ++ v
    | none => oid key
  let s1 := { s with dataFiles := insertA s.dataFiles object_id data }
  let metadata := { ObjectMetadata.ofObject object with version_id := version_id }
  let s2 := save_object_metadata s1 object_id metadata
  let s3 := add_object_to_index s2 key object_id
  let s4 := add_etag_to_index s3 etag object_id
  .ok (s4, object)

/-- services.rs `put_object`: `put_object_with_versioning` with versioning off. -/
def put_object (oid : String → String) (md5 : List Nat → String) (b : String)
    (bucketExists : Bool) (now : Nat) (vid : String) (s : Store) (key : String)
    (data : List Nat) (content_type : String)
    (user_metadata : List (String × String)) : Except SvError (Store × Object) :=
  put_object_with_versioning oid md5 b bucketExists now vid s key data
    content_type user_metadata false

/-- services.rs `find_duplicate_content_keys`: the keys of the sidecars of all
ids indexed under `etag`, skipping ids whose sidecar is missing and the
excluded key. -/
def find_duplicate_content_keys (s : Store) (etag : String)
    (exclude_key : Option String) : List String :=
  (find_objects_by_etag s etag).foldl
    (fun acc object_id =>
      match load_object_metadata s object_id with
      | some m =>
        match exclude_key with
        | some ex => if m.key ≠ ex then acc ++ [m.key] else acc
        | none => acc ++ [m.key]
      | none => acc)
    []

/-- services.rs lines 794-831: select the data holder for a `Reference` put.
The fold keeps the first candidate whose (direct or indirect) reference count
strictly exceeds all earlier ones; when none exceeds 0, fall back to the id of
the first duplicate key. -/
def selectStep (s : Store) (acc : Option String × Nat) (dk : String) :
    Option String × Nat :=
  match find_object_id_by_key s dk with
  | some objId =>
    match load_object_metadata s objId with
    | some m =>
      let cur := match m.data_holder_id with
        | none => m.reference_count
        | some hid =>
          match load_object_metadata s hid with
          | some hm => hm.reference_count
          | none => 0
      if acc.2 < cur then (some objId, cur) else acc
    | none => acc
  | none => acc

def select_data_holder (s : Store) (dup : List String) (firstDup : String) :
    Except SvError String :=
  let best := dup.foldl (selectStep s) ((none : Option String), 0)
  match best.1 with
  | some h => .ok h
  | none =>
    match find_object_id_by_key s firstDup with
    | some i => .ok i
    | none => .error .duplicateObjectNotFound

/-- services.rs `put_object_with_deduplication` (lines 764-870). -/
def put_object_with_deduplication (oid : String → String) (md5 : List Nat → String)
    (b : String) (bucketExists : Bool) (now : Nat) (vid : String) (s : Store)
    (key : String) (data : List Nat) (content_type : String)
    (user_metadata : List (String × String)) (mode : DeduplicationMode) :
    Except SvError (Store × Object) :=
  let etag := generate_etag md5 data
  let duplicate_keys := find_duplicate_content_keys s etag (some key)
  match mode with
  | .Reject =>
    if !duplicate_keys.isEmpty then .error (.contentExistsKeys duplicate_keys)
    else put_object oid md5 b bucketExists now vid s key data content_type user_metadata
  | .Allow =>
    put_object oid md5 b bucketExists now vid s key data content_type user_metadata
  | .Reference =>
    match duplicate_keys with
    | [] => put_object oid md5 b bucketExists now vid s key data content_type user_metadata
    | firstDup :: restDup =>
      match select_data_holder s (firstDup :: restDup) firstDup with
      | .error e => .error e
      | .ok data_holder_id =>
        let s1 := match load_object_metadata s data_holder_id with
          | some hm =>
            save_object_metadata s data_holder_id
              { hm with reference_count := (hm.reference_count + 1) % 4294967296 }
          | none => s
        let new_object := Object.new key b data.length content_type etag user_metadata now
        let new_object_id := oid key
        let new_metadata :=
          { ObjectMetadata.ofObject new_object with
              data_holder_id := some data_holder_id, reference_count := 0 }
        let s2 := save_object_metadata s1 new_object_id new_metadata
        let s3 := add_object_to_index s2 key new_object_id
        let s4 := add_etag_to_index s3 etag new_object_id
        .ok (s4, new_object)

/-- services.rs `delete_object` (lines 955-1005). -/
def delete_object (b : String) (bucketExists : Bool) (s : Store) (key : String) :
    Except SvError Store :=
  if bucketExists = false then .error (.bucketNotFound b) else
  match find_object_id_by_key s key with
  | none => .error (.objectNotFound key b)
  | some object_id =>
  match load_object_metadata s object_id with
  | none => .error .metadataNotFound
  | some metadata =>
  match metadata.data_holder_id with
  | some data_holder_id =>
    let s1 := delete_object_metadata s object_id
    let s2 := remove_object_from_index s1 key
    let s3 := remove_etag_from_index s2 metadata.etag object_id
    let s4 := match load_object_metadata s3 data_holder_id with
      | some hm =>
        if 0 < hm.reference_count then
          save_object_metadata s3 data_holder_id
            { hm with reference_count := hm.reference_count - 1 }
        else s3
      | none => s3
    .ok s4
  | none =>
    if 0 < metadata.reference_count then
      .error (.hasReferences key metadata.reference_count)
    else
      let s1 := { s with dataFiles := eraseA s.dataFiles object_id }
      let s2 := delete_object_metadata s1 object_id
      let s3 := remove_object_from_index s2 key
      let s4 := remove_etag_from_index s3 metadata.etag object_id
      .ok s4

/-- A directory entry of `.sevino.meta/objects/`: the file name and its parse
result (`none` models a file `serde_json::from_str` fails on). -/
structure DirEntry where
  name : String
  content : Option ObjectMetadata
deriving DecidableEq

/-- The directory listing of `.sevino.meta/objects/` induced by the store:
every sidecar `<id>.json` (read order is irrelevant, the source sorts). -/
def dirEntries (s : Store) : List DirEntry :=
  s.sidecars.map (fun p => ⟨p.1 ++ ".json", some p.2⟩)

/-- `path.extension() == Some("json")`: the extension of the final path
component, compared against `json` (checked reversed). -/
def isJsonFile (n : String) : Bool :=
  revExt (fileNameRev n) = some ['n', 'o', 's', 'j']

/-- Byte-wise comparison of file names, as `OsString::cmp` compares the ASCII
names `<hex id>.json` (code-point order equals byte order on ASCII). -/
def lexLe : List Char → List Char → Bool
  | [], _ => true
  | _ :: _, [] => false
  | a :: as, b :: bs =>
      decide (a.toNat < b.toNat) || (decide (a.toNat = b.toNat) && lexLe as bs)

/-- The sorting relation of `entries.sort_by(|a, b| a.file_name().cmp(&b.file_name()))`. -/
def eLe (a b : DirEntry) : Prop := lexLe a.name.toList b.name.toList = true

instance : DecidableRel eLe := fun a b => inferInstanceAs (Decidable (_ = true))

/-- `entries.sort_by(...)`: a stable sort by file name (insertion sort is a
stable sort, hence models Rust's stable `sort_by`). -/
def sortEntries (l : List DirEntry) : List DirEntry := List.insertionSort eLe l

/-- Has the `max_keys` cap been reached (`count >= max_keys`, with a missing
`max_keys` standing for `usize::MAX`, which a count bounded by the directory
size never reaches)? -/
def capReached (maxKeys : Option Nat) (count : Nat) : Bool :=
  match maxKeys with
  | some k => k ≤ count
  | none => false

/-- The loop of `list_object_metadata_with_pagination` (services.rs:319-347)
over the sorted entries: `started` and `count` are the two mutable loop
variables, `break` returns the accumulated list. -/
def listLoop (marker : Option String) (maxKeys : Option Nat) :
    List DirEntry → Bool → Nat → List ObjectMetadata
  | [], _, _ => []
  | e :: rest, started, count =>
    if capReached maxKeys count then []
    else if isJsonFile e.name then
      if started = false then
        match marker with
        | some m =>
          if e.name = m then listLoop marker maxKeys rest true count
          else listLoop marker maxKeys rest false count
        | none =>
          match e.content with
          | some md => md :: listLoop marker maxKeys rest false (count + 1)
          | none => listLoop marker maxKeys rest false count
      else
        match e.content with
        | some md => md :: listLoop marker maxKeys rest true (count + 1)
        | none => listLoop marker maxKeys rest true count
    else listLoop marker maxKeys rest started count

/-- services.rs `list_object_metadata_with_pagination` over an arbitrary
directory listing: sort by file name, then run the loop with
`started = marker.is_none()` and `count = 0`. -/
def listPaginationEntries (entries : List DirEntry) (maxKeys : Option Nat)
    (marker : Option String) : List ObjectMetadata :=
  listLoop marker maxKeys (sortEntries entries) marker.isNone 0

/-- services.rs `list_object_metadata_with_pagination` of the bucket's store. -/
def list_object_metadata_with_pagination (s : Store) (maxKeys : Option Nat)
    (marker : Option String) : List ObjectMetadata :=
  listPaginationEntries (dirEntries s) maxKeys marker

/-- services.rs `list_object_metadata`. -/
def list_object_metadata (s : Store) : List ObjectMetadata :=
  list_object_metadata_with_pagination s none none

/-- `l.take k` under an optional cap. -/
def takeCap {α : Type} (maxKeys : Option Nat) (l : List α) : List α :=
  match maxKeys with
  | some k => l.take k
  | none => l

/-- The suffix of the entry list strictly after the first entry that is a
`.json` file named `m` (the empty list when there is none): where the
pagination loop starts collecting once the marker has matched. -/
def afterName (m : String) : List DirEntry → List DirEntry
  | [] => []
  | e :: rest =>
      if isJsonFile e.name && e.name = m then rest else afterName m rest

/-- services.rs `list_objects` (lines 1023-1089): paginate, convert to
`Object`, filter by prefix, then roll up keys containing the delimiter into
deduplicated pseudo-entries of size 0 and content type
`application/x-directory` (the accumulator pairs the output list with
`seen_prefixes`). -/
def list_objects (b : String) (bucketExists : Bool) (now : Nat) (s : Store)
    (pfx delim : Option String) (maxKeys : Option Nat) (marker : Option String) :
    Except SvError (List Object) :=
  if bucketExists = false then .error (.bucketNotFound b) else
  let metas := list_object_metadata_with_pagination s maxKeys marker
  let objects := metas.map (fun m =>
    Object.new m.key m.bucket_name m.size m.content_type m.etag m.user_metadata now)
  let objects := match pfx with
    | some p => objects.filter (fun o => isPrefixB p.toList o.key.toList)
    | none => objects
  let objects := match delim with
    | some d =>
      (objects.foldl
        (fun (acc : List Object × List String) o =>
          match findSub o.key.toList d.toList with
          | some pos =>
            let pre := String.mk (o.key.toList.take (pos + d.toList.length))
            if pre ∈ acc.2 then acc
            else (acc.1 ++ [Object.new pre b 0 "application/x-directory" "" [] now],
                  acc.2 ++ [pre])
          | none => (acc.1 ++ [o], acc.2))
        ([], [])).1
    | none => objects
  .ok objects

/-- `P` holds of the value under `some`, and `none` fails. -/
def onSome {α : Type} (o : Option α) (P : α → Prop) : Prop :=
  match o with
  | some a => P a
  | none => False

instance {α : Type} (o : Option α) (P : α → Prop) [∀ a, Decidable (P a)] :
    Decidable (onSome o P) :=
  match o with
  | some a => inferInstanceAs (Decidable (P a))
  | none => isFalse (fun h => h)

/-- Consistency of a store, as the specification's invariants 1 and 2 demand
after every successful operation: the association lists are maps (no duplicate
keys); an index entry points at a sidecar carrying its key; every sidecar is
indexed under its key; every id listed under an etag has a sidecar carrying
that etag; and every sidecar's id is listed under its etag. -/
def WF (s : Store) : Prop :=
  (s.objectIndex.map Prod.fst).Nodup ∧
  (s.sidecars.map Prod.fst).Nodup ∧
  (s.etagIndex.map Prod.fst).Nodup ∧
  (∀ p ∈ s.objectIndex, onSome (lookupA s.sidecars p.2) (fun m => m.key = p.1)) ∧
  (∀ q ∈ s.sidecars, lookupA s.objectIndex q.2.key = some q.1) ∧
  (∀ ep ∈ s.etagIndex, ∀ id ∈ ep.2,
    onSome (lookupA s.sidecars id) (fun m => m.etag = ep.1)) ∧
  (∀ q ∈ s.sidecars, q.1 ∈ find_objects_by_etag s q.2.etag)

/-- Some object of the bucket stored under a key other than `key` has this
etag (the duplicate-content condition of the claims). -/
def OtherHolds (s : Store) (key etag : String) : Prop :=
  ∃ p ∈ s.sidecars, p.2.key ≠ key ∧ p.2.etag = etag

/-- The object stored under `key` itself has this etag. -/
def SameHolds (s : Store) (key etag : String) : Prop :=
  ∃ p ∈ s.sidecars, p.2.key = key ∧ p.2.etag = etag

/-- The result of the fresh-write procedure (services.rs:634-677, versioning
off): data file, sidecar, and both index registrations for `oid key`. -/
def freshResult (oid : String → String) (b : String) (now : Nat) (s : Store)
    (key : String) (data : List Nat) (mime etag : String)
    (user_metadata : List (String × String)) : Store × Object :=
  let object := Object.new key b data.length mime etag user_metadata now
  let object_id := oid key
  ({ objectIndex := insertA s.objectIndex key object_id,
     etagIndex := addEtagEntry s.etagIndex etag object_id,
     sidecars := insertA s.sidecars object_id (ObjectMetadata.ofObject object),
     dataFiles := insertA s.dataFiles object_id data },
   object)

/-- ASCII letter (`A`-`Z` or `a`-`z`). -/
def asciiLetter (c : Char) : Bool :=
  (decide (65 ≤ c.toNat) && decide (c.toNat ≤ 90)) ||
  (decide (97 ≤ c.toNat) && decide (c.toNat ≤ 122))

/-- ASCII digit (`0`-`9`). -/
def asciiDigit (c : Char) : Bool :=
  decide (48 ≤ c.toNat) && decide (c.toNat ≤ 57)

/-- Rust `char::is_alphanumeric` restricted to ASCII inputs, where it agrees
with this definition. -/
def asciiAlnum (c : Char) : Bool := asciiLetter c || asciiDigit c

/-- Rust `char::is_numeric` restricted to ASCII inputs, where it agrees with
this definition. -/
def asciiNum (c : Char) : Bool := asciiDigit c

/-- Modelled from the spec's words (for comparison with the source-derived
`validate_bucket_name`): the regex `^[A-Za-z][A-Za-z0-9-]{0,62}$` quoted by
the claim — first character an ASCII letter, then up to 62 ASCII letters,
digits or hyphens. -/
def matchesSpecRegex (name : List Char) : Bool :=
  match name with
  | [] => false
  | c0 :: rest =>
    asciiLetter c0 && decide (rest.length ≤ 62) &&
    rest.all (fun c => asciiLetter c || asciiDigit c || c = '-')

/-- The claim's prose gloss of the bucket-name rule: 1 to 63 characters, each
an ASCII letter, digit or hyphen, beginning with an ASCII letter, with no
trailing hyphen (a leading hyphen is already excluded by the first letter). -/
def bucketGloss (name : List Char) : Bool :=
  match name with
  | [] => false
  | c0 :: _ =>
    asciiLetter c0 && decide (name.length ≤ 63) &&
    name.all (fun c => asciiLetter c || asciiDigit c || c = '-') &&
    !(name.getLastD 'x' = '-')

/-- Concrete stand-in for `generate_object_id` restricted to the fixed bucket
of a scenario: injective in the key, as SHA-256 of `bucket:key` is for the
keys involved. -/
def oidI : String → String := fun k => "id-" ++ k

/-- Concrete stand-in for `md5_hex` in the scenarios: injective on the byte
strings involved, as MD5 is. -/
def md5I : List Nat → String := fun d => String.mk (d.map (fun n => Char.ofNat (65 + n)))

/-- Extract the store of a successful put (scenario plumbing only). -/
def okStore (r : Except SvError (Store × Object)) : Store :=
  match r with
  | .ok (s, _) => s
  | .error _ => Store.empty

/-- Scenario for the same-key idempotent put: one object under key `k`. -/
def c1s1 : Store :=
  okStore (put_object oidI md5I "b" true 0 "v" Store.empty "k" [1] "text/plain" [])

/-- Scenario for the reject-policy put on the key's own content: one object
under key `k` (independent copy of the single-object scenario). -/
def c5s1 : Store :=
  okStore (put_object oidI md5I "b" true 0 "v" Store.empty "k" [1] "text/plain" [])

/-- Scenario for the stale-etag-after-overwrite run: put `k` with one byte
string, then put `k` again with a different one. -/
def c6r : Except SvError Store := do
  let (s, _) ← put_object oidI md5I "b" true 0 "v" Store.empty "k" [1] "text/plain" []
  let (s, _) ← put_object oidI md5I "b" true 1 "v" s "k" [2] "text/plain" []
  pure s

def c6s : Store :=
  match c6r with
  | .ok s => s
  | .error _ => Store.empty

/-- Scenario for the reference-graph invariant: put `k1`; reference it from
`k2`; overwrite `k1` with different bytes (resetting its reference count and
changing its etag); delete `k1` (now unguarded); reference-put `k3` with the
original bytes. -/
def c2r : Except SvError Store := do
  let (s, _) ← put_object oidI md5I "b" true 0 "v" Store.empty "k1" [1] "text/plain" []
  let (s, _) ← put_object_with_deduplication oidI md5I "b" true 1 "v" s "k2" [1]
                 "text/plain" [] .Reference
  let (s, _) ← put_object oidI md5I "b" true 2 "v" s "k1" [2] "text/plain" []
  let s ← delete_object "b" true s "k1"
  let (s, _) ← put_object_with_deduplication oidI md5I "b" true 3 "v" s "k3" [1]
                 "text/plain" [] .Reference
  pure s

def c2s : Store :=
  match c2r with
  | .ok s => s
  | .error _ => Store.empty

/-- Scenario for the delimiter listing: the four objects of the claim, then
the filtered listing with prefix `photos/` and delimiter `/`. -/
def c7r : Except SvError (List Object) := do
  let (s, _) ← put_object oidI md5I "b" true 0 "v" Store.empty "photos/2024/a.jpg" [1]
                 "text/plain" []
  let (s, _) ← put_object oidI md5I "b" true 0 "v" s "photos/2024/b.jpg" [2]
                 "text/plain" []
  let (s, _) ← put_object oidI md5I "b" true 0 "v" s "photos/2023/c.jpg" [3]
                 "text/plain" []
  let (s, _) ← put_object oidI md5I "b" true 0 "v" s "docs/x.txt" [4]
                 "text/plain" []
  list_objects "b" true 0 s (some "photos/") (some "/") none none

def c7objs : List Object :=
  match c7r with
  | .ok l => l
  | .error _ => []

def c4meta : ObjectMetadata :=
  ⟨"k", "b", 1, "text/plain", "\"B\"", 0, 0, [], none, false, 1, none⟩

def c4s : Store := ⟨[("k", "A")], [("\"B\"", ["A"])], [("A", c4meta)], [("A", [1])]⟩

def takeFrom {α : Type} (maxKeys : Option Nat) (count : Nat) (l : List α) : List α :=
  match maxKeys with
  | some k => l.take (k - count)
  | none => l

def idSafe (id : String) : Bool :=
  !(id.toList = []) && id.toList.all (fun c => !(c = '/') && !(c = '.'))

def c8meta1 : ObjectMetadata :=
  ⟨"x", "b", 1, "text/plain", "\"B\"", 0, 0, [], none, false, 0, none⟩

def c8meta2 : ObjectMetadata :=
  ⟨"y", "b", 1, "text/plain", "\"C\"", 0, 0, [], none, false, 0, none⟩

def c8s : Store :=
  ⟨[("x", "A"), ("y", "D")], [("\"B\"", ["A"]), ("\"C\"", ["D"])],
   [("A", c8meta1), ("D", c8meta2)], [("A", [1]), ("D", [2])]⟩

def c10meta : ObjectMetadata :=
  ⟨"k", "b", 1, "text/plain", "\"B\"", 0, 0, [], none, false, 0, none⟩

def c10s : Store := ⟨[("k", "A")], [("\"B\"", ["A"])], [("A", c10meta)], [("A", [1])]⟩

instance (s : Store) (key etag : String) : Decidable (OtherHolds s key etag) := by
  unfold OtherHolds
  infer_instance

instance (s : Store) (key etag : String) : Decidable (SameHolds s key etag) := by
  unfold SameHolds
  infer_instance

instance (s : Store) : Decidable (WF s) := by
  unfold WF
  infer_instance

def md5C5 : List Nat → String := fun _ => "X"

def c5wMeta : ObjectMetadata :=
  ⟨"a", "b", 1, "text/plain", "\"X\"", 0, 0, [], none, false, 0, none⟩

def c5wStore : Store :=
  ⟨[("a", "A")], [("\"X\"", ["A"])], [("A", c5wMeta)], [("A", [9])]⟩

def md5C3 : List Nat → String := fun _ => "Y"

def c3wMeta : ObjectMetadata :=
  ⟨"a", "b", 1, "text/plain", "\"Y\"", 0, 0, [], none, false, 0, none⟩

def c3wStore : Store :=
  ⟨[("a", "A")], [("\"Y\"", ["A"])], [("A", c3wMeta)], [("A", [9])]⟩

/-- Constant stand-in for `md5_hex` in the wrap scenario. -/
def md5C3x : List Nat → String := fun _ => "Z"

/-- A holder whose reference count is at `u32::MAX` — a legitimate sidecar
state (`serde` parses it) at which the source's `reference_count += 1`
(services.rs:835) wraps. -/
def c3xMeta : ObjectMetadata :=
  ⟨"a", "b", 1, "text/plain", "\"Z\"", 0, 0, [], none, false, 4294967295, none⟩

def c3xStore : Store :=
  ⟨[("a", "A")], [("\"Z\"", ["A"])], [("A", c3xMeta)], [("A", [9])]⟩

def c3xResult : Except SvError (Store × Object) :=
  put_object_with_deduplication oidI md5C3x "b" true 1 "v" c3xStore "k2" [9]
    "text/plain" [] .Reference

def c3xFinal : Store :=
  match c3xResult with
  | .ok (st, _) => st
  | .error _ => Store.empty

/-- C1: the claim fails on the code.  In the state `c1s1`, key `k` maps to an
object whose sidecar's etag equals the quoted MD5 of the bytes `[1]` (the
claim's precondition), yet putting `(b, k, [1])` again does not succeed: the
cross-key duplicate check of services.rs:589-608 consults the etag index
before the same-key fast path of 611-632 can run, finds the key's own id, and
returns the "Content already exists with key" error.  The fast path the spec
describes is unreachable whenever the etag index is consistent with the
sidecars. -/
theorem c1_same_key_put_rejected :
    (load_object_metadata c1s1 (oidI "k")).map (fun m => m.etag) =
      some (generate_etag md5I [1]) ∧
    put_object oidI md5I "b" true 1 "v" c1s1 "k" [1] "text/plain" [] =
      .error (.contentExistsKey "k" (generate_etag md5I [1])) := by
  decide

/-- C2: the claim fails on the code.  After the successful run `c2r` — put
`k1`, reference-put `k2` (holder `k1`), overwrite `k1` with different bytes
(which resets the holder's reference count to 0 and changes its etag without
cleaning the etag index), delete `k1` (now unguarded), reference-put `k3`
with the original bytes — the final state has: `k3`'s sidecar pointing at
`k2`'s id although `k2` is itself a reference (holders chain), and `k2`'s
sidecar pointing at `k1`'s id although neither a sidecar nor a data file for
it exists. -/
theorem c2_reference_invariant_broken :
    c2r = Except.ok c2s ∧
    (load_object_metadata c2s (oidI "k3")).map (fun m => m.data_holder_id) =
      some (some (oidI "k2")) ∧
    (load_object_metadata c2s (oidI "k2")).map (fun m => m.data_holder_id) =
      some (some (oidI "k1")) ∧
    load_object_metadata c2s (oidI "k1") = none ∧
    lookupA c2s.dataFiles (oidI "k1") = none := by
  decide

/-- C6: the claim fails on the code.  After the successful run `c6r` —
putting key `k` with bytes `[1]` and then overwriting it with bytes `[2]` —
the sidecar of `k`'s id carries the new etag, yet the etag index still lists
that id under the old etag: overwriting never calls
`remove_etag_from_index`, so invariant 2 is broken after a successful put. -/
theorem c6_overwrite_leaves_stale_etag :
    c6r = Except.ok c6s ∧
    (load_object_metadata c6s (oidI "k")).map (fun m => m.etag) =
      some (generate_etag md5I [2]) ∧
    oidI "k" ∈ find_objects_by_etag c6s (generate_etag md5I [1]) ∧
    generate_etag md5I [1] ≠ generate_etag md5I [2] := by
  decide

/-- C7: counterexample to the claim.  After putting the four objects of the
claim, listing with prefix `photos/` and delimiter `/` returns one entry, and
neither `photos/2024/` nor `photos/2023/` occurs in it: the rollup of
services.rs:1066-1067 truncates at the first delimiter occurrence in the full
key, not the first one after the prefix, so both 2024 keys and the 2023 key
collapse into the single pseudo-entry `photos/`. -/
theorem c7_listing_counterexample :
    c7objs.length = 1 ∧
    "photos/2024/" ∉ c7objs.map (fun o => o.key) ∧
    "photos/2023/" ∉ c7objs.map (fun o => o.key) := by
  decide

/-- C7 (amended): after putting objects with keys `photos/2024/a.jpg`,
`photos/2024/b.jpg`, `photos/2023/c.jpg` and `docs/x.txt`, listing with
prefix `photos/` and delimiter `/` returns exactly one pseudo-entry,
`photos/`, with size 0, content type `application/x-directory` and empty
etag, and no real objects. -/
theorem c7_listing_rollup :
    c7r = Except.ok [Object.new "photos/" "b" 0 "application/x-directory" "" [] 0] := by
  decide

/-- C5: counterexample to the claim.  In the state `c5s1` the only object of
the bucket is stored under the very key being put (no *other* key holds the
etag), so the claim asserts the `Reject` put succeeds; instead the inner
`put_object` duplicate check finds the key's own id in the etag index and
fails with the "Content already exists with key" error. -/
theorem c5_reject_counterexample :
    c5s1.sidecars.map (fun p => p.2.key) = ["k"] ∧
    put_object_with_deduplication oidI md5I "b" true 1 "v" c5s1 "k" [1] "text/plain" []
        .Reject = .error (.contentExistsKey "k" (generate_etag md5I [1])) := by
  decide

/-- C4: confirmed.  For a delete that resolves key to an id whose sidecar has
no `data_holder_id` (a holder): the call fails with `HasReferences` carrying
the count exactly when `reference_count > 0` — the check precedes every
mutation, so the store is returned unchanged with the error — and when the
count is 0 it deletes the data file and the sidecar and removes the key from
the object index and the id from the etag index. -/
theorem c4_delete_holder (b : String) (s : Store) (key object_id : String)
    (m : ObjectMetadata)
    (hidx : find_object_id_by_key s key = some object_id)
    (hmeta : load_object_metadata s object_id = some m)
    (hholder : m.data_holder_id = none) :
    delete_object b true s key =
      if 0 < m.reference_count then
        .error (.hasReferences key m.reference_count)
      else
        .ok { objectIndex := eraseA s.objectIndex key,
              etagIndex := removeEtagEntry s.etagIndex m.etag object_id,
              sidecars := eraseA s.sidecars object_id,
              dataFiles := eraseA s.dataFiles object_id } := by
  simp only [delete_object, hidx, hmeta, hholder, delete_object_metadata,
    remove_object_from_index, remove_etag_from_index, Bool.true_eq_false,
    if_false]

theorem c4_delete_holder_witness :
    delete_object "b" true c4s "k" =
      if 0 < c4meta.reference_count then
        .error (.hasReferences "k" c4meta.reference_count)
      else
        .ok { objectIndex := eraseA c4s.objectIndex "k",
              etagIndex := removeEtagEntry c4s.etagIndex c4meta.etag "A",
              sidecars := eraseA c4s.sidecars "A",
              dataFiles := eraseA c4s.dataFiles "A" } :=
  c4_delete_holder "b" c4s "k" "A" c4meta (by decide) (by decide) (by decide)

/-- On ASCII characters Rust counts one byte each. -/
theorem byteLen_ascii (l : List Char) (h : ∀ c ∈ l, c.toNat < 128) :
    byteLen l = l.length := by
  induction l with
  | nil => rfl
  | cons c t ih =>
    have hc : charSize c = 1 := by
      simp [charSize, h c (List.mem_cons_self c t)]
    have ht : byteLen t = t.length := ih (fun x hx => h x (List.mem_cons_of_mem c hx))
    simp only [byteLen, List.map_cons, List.sum_cons, hc] at ht ⊢
    rw [List.length_cons]
    omega

/-- ASCII digits are not ASCII letters. -/
theorem asciiDigit_not_letter (c : Char) (h : asciiDigit c = true) :
    asciiLetter c = false := by
  simp only [asciiDigit, Bool.and_eq_true, decide_eq_true_eq] at h
  simp only [asciiLetter, Bool.or_eq_false_iff, Bool.and_eq_false_iff,
    decide_eq_false_iff_not]
  omega

/-- C9: counterexample to the claim.  The string `a-` matches the claim's
regex `^[A-Za-z][A-Za-z0-9-]{0,62}$` (the regex admits a trailing hyphen),
yet the code rejects it: `validate_bucket_name` refuses names ending in a
hyphen, so acceptance is not equivalent to matching the quoted regex.  (The
instantiation `asciiAlnum`/`asciiNum` agrees with Rust's `char` classes on
the ASCII string `a-`.) -/
theorem c9_regex_counterexample :
    matchesSpecRegex ['a', '-'] = true ∧
    validate_bucket_name asciiAlnum asciiNum ['a', '-'] =
      .error "Bucket name cannot start or end with a hyphen" := by
  decide

/-- C9 (amended): on ASCII strings — where the Unicode character classes of
Rust's `char::is_alphanumeric` / `char::is_numeric` coincide with
`asciiAlnum` / `asciiNum` — bucket-name validation accepts exactly the
strings of 1 to 63 ASCII letters, digits or hyphens that begin with an ASCII
letter and do not end with a hyphen (the claim's prose gloss, which unlike
its regex excludes the trailing hyphen); every other string is rejected with
an error. -/
theorem c9_validate_ascii (name : List Char) (hAscii : ∀ c ∈ name, c.toNat < 128) :
    (validate_bucket_name asciiAlnum asciiNum name = .ok () ↔ bucketGloss name = true) := by
  have hlen : byteLen name = name.length := byteLen_ascii name hAscii
  cases name with
  | nil => simp [validate_bucket_name, bucketGloss]
  | cons c0 rest =>
    have hfun : (fun c => asciiAlnum c || decide (c = '-')) =
        (fun c => asciiLetter c || asciiDigit c || decide (c = '-')) := by
      funext c
      simp [asciiAlnum, Bool.or_assoc]
    simp only [validate_bucket_name, bucketGloss, hlen, hfun]
    split_ifs with h1 h2 h3 h4
    · constructor
      · intro h; cases h
      · intro h
        simp only [Bool.and_eq_true, decide_eq_true_eq] at h
        omega
    · constructor
      · intro h; cases h
      · intro h
        simp only [Bool.and_eq_true] at h
        rw [Bool.not_eq_true'] at h2
        rw [h.1.2] at h2
        cases h2
    · constructor
      · intro h; cases h
      · intro h
        simp only [Bool.and_eq_true, decide_eq_true_eq] at h
        simp only [Bool.or_eq_true, decide_eq_true_eq] at h3
        rcases h3 with h3 | h3
        · have hd : asciiLetter '-' = false := by decide
          rw [h3, hd] at h
          exact Bool.false_ne_true h.1.1.1
        · rcases h with ⟨_, hlast⟩
          rw [Bool.not_eq_true', decide_eq_false_iff_not] at hlast
          exact hlast h3
    · constructor
      · intro h; cases h
      · intro h
        simp only [Bool.and_eq_true, decide_eq_true_eq] at h
        have := asciiDigit_not_letter c0 h4
        rw [this] at h
        exact Bool.false_ne_true h.1.1.1
    · constructor
      · intro _
        simp only [Bool.not_eq_true'] at h2
        simp only [Bool.or_eq_true, decide_eq_true_eq, not_or] at h3
        rw [Bool.not_eq_true] at h4
        have hall : ((c0 :: rest).all
            fun c => asciiLetter c || asciiDigit c || decide (c = '-')) = true := by
          cases hx : ((c0 :: rest).all
              fun c => asciiLetter c || asciiDigit c || decide (c = '-'))
          · exact absurd hx h2
          · rfl
        have hc0 : (asciiLetter c0 || asciiDigit c0 || decide (c0 = '-')) = true :=
          List.all_eq_true.mp hall c0 (List.mem_cons_self c0 rest)
        have hLetter : asciiLetter c0 = true := by
          simp only [Bool.or_eq_true, decide_eq_true_eq] at hc0
          rcases hc0 with (hc | hc) | hc
          · exact hc
          · rw [show asciiDigit c0 = false from by
              simpa [asciiNum] using h4] at hc
            cases hc
          · exact absurd hc h3.1
        simp only [Bool.and_eq_true, decide_eq_true_eq]
        refine ⟨⟨⟨hLetter, by omega⟩, hall⟩, ?_⟩
        simp only [Bool.not_eq_true', decide_eq_false_iff_not]
        exact h3.2
      · intro _; rfl

theorem c9_validate_ascii_witness :
    (("photos-2".toList.all fun c => decide (c.toNat < 128)) = true) ∧
    (validate_bucket_name asciiAlnum asciiNum "photos-2".toList = .ok () ↔
      bucketGloss "photos-2".toList = true) :=
  ⟨by decide, c9_validate_ascii "photos-2".toList (by decide)⟩

theorem lexLe_total (a : List Char) : ∀ b, lexLe a b = true ∨ lexLe b a = true := by
  induction a with
  | nil => intro b; left; rfl
  | cons x xs ih =>
    intro b
    cases b with
    | nil => right; rfl
    | cons y ys =>
      simp only [lexLe, Bool.or_eq_true, Bool.and_eq_true, decide_eq_true_eq]
      rcases Nat.lt_trichotomy x.toNat y.toNat with h | h | h
      · left; left; exact h
      · rcases ih ys with hx | hx
        · left; right; exact ⟨h, hx⟩
        · right; right; exact ⟨h.symm, hx⟩
      · right; left; exact h

theorem lexLe_trans (a : List Char) :
    ∀ b c, lexLe a b = true → lexLe b c = true → lexLe a c = true := by
  induction a with
  | nil => intro b c _ _; rfl
  | cons x xs ih =>
    intro b c hab hbc
    cases b with
    | nil => simp [lexLe] at hab
    | cons y ys =>
      cases c with
      | nil => simp [lexLe] at hbc
      | cons z zs =>
        simp only [lexLe, Bool.or_eq_true, Bool.and_eq_true, decide_eq_true_eq] at hab hbc ⊢
        rcases hab with hab | ⟨hab, hab'⟩
        · rcases hbc with hbc | ⟨hbc, _⟩
          · left; omega
          · left; omega
        · rcases hbc with hbc | ⟨hbc, hbc'⟩
          · left; omega
          · right; exact ⟨by omega, ih ys zs hab' hbc'⟩

instance : IsTotal DirEntry eLe :=
  ⟨fun a b => lexLe_total a.name.toList b.name.toList⟩

instance : IsTrans DirEntry eLe :=
  ⟨fun a b c => lexLe_trans a.name.toList b.name.toList c.name.toList⟩

theorem sortEntries_perm (l : List DirEntry) : List.Perm (sortEntries l) l :=
  List.perm_insertionSort eLe l

theorem sortEntries_sorted (l : List DirEntry) : List.Sorted eLe (sortEntries l) :=
  List.sorted_insertionSort eLe l

theorem listLoop_nil (m : Option String) (maxK : Option Nat) (started : Bool)
    (count : Nat) : listLoop m maxK [] started count = [] := rfl

theorem listLoop_cap (m : Option String) (maxK : Option Nat) (e : DirEntry)
    (rest : List DirEntry) (started : Bool) (count : Nat)
    (hcap : capReached maxK count = true) :
    listLoop m maxK (e :: rest) started count = [] := by
  simp [listLoop, hcap]

theorem listLoop_nonjson (m : Option String) (maxK : Option Nat) (e : DirEntry)
    (rest : List DirEntry) (started : Bool) (count : Nat)
    (hcap : capReached maxK count = false) (hj : isJsonFile e.name = false) :
    listLoop m maxK (e :: rest) started count = listLoop m maxK rest started count := by
  simp [listLoop, hcap, hj]

theorem listLoop_collect (m : Option String) (maxK : Option Nat) (e : DirEntry)
    (rest : List DirEntry) (count : Nat) (md : ObjectMetadata)
    (hcap : capReached maxK count = false) (hj : isJsonFile e.name = true)
    (hc : e.content = some md) :
    listLoop m maxK (e :: rest) true count =
      md :: listLoop m maxK rest true (count + 1) := by
  simp [listLoop, hcap, hj, hc]

theorem listLoop_match (mv : String) (maxK : Option Nat) (e : DirEntry)
    (rest : List DirEntry) (count : Nat)
    (hcap : capReached maxK count = false) (hj : isJsonFile e.name = true)
    (hname : e.name = mv) :
    listLoop (some mv) maxK (e :: rest) false count =
      listLoop (some mv) maxK rest true count := by
  subst hname
  simp [listLoop, hcap, hj]

theorem listLoop_nomatch (mv : String) (maxK : Option Nat) (e : DirEntry)
    (rest : List DirEntry) (count : Nat)
    (hcap : capReached maxK count = false) (hj : isJsonFile e.name = true)
    (hname : ¬ e.name = mv) :
    listLoop (some mv) maxK (e :: rest) false count =
      listLoop (some mv) maxK rest false count := by
  simp [listLoop, hcap, hj, hname]

theorem capReached_false_lt {k count : Nat} (h : capReached (some k) count = false) :
    count < k := by
  simp only [capReached, decide_eq_false_iff_not] at h
  omega

theorem listLoop_length (m : Option String) (k : Nat) :
    ∀ (es : List DirEntry) (started : Bool) (count : Nat),
      (listLoop m (some k) es started count).length ≤ k - count := by
  intro es
  induction es with
  | nil => intro started count; simp [listLoop_nil]
  | cons e rest ih =>
    intro started count
    by_cases hcap : capReached (some k) count = true
    · simp [listLoop_cap m (some k) e rest started count hcap]
    · have hcapf : capReached (some k) count = false := by
        cases h : capReached (some k) count
        · rfl
        · exact absurd h hcap
      have hck := capReached_false_lt hcapf
      by_cases hj : isJsonFile e.name = true
      · cases started with
        | true =>
          cases hc : e.content with
          | some md =>
            rw [listLoop_collect m (some k) e rest count md hcapf hj hc]
            have := ih true (count + 1)
            simp only [List.length_cons]
            omega
          | none =>
            have : listLoop m (some k) (e :: rest) true count =
                listLoop m (some k) rest true (count + 1 - 1) := by
              simp [listLoop, hcapf, hj, hc]
            rw [this]
            have := ih true count
            simpa using this
        | false =>
          cases m with
          | some mv =>
            by_cases hname : e.name = mv
            · rw [listLoop_match mv (some k) e rest count hcapf hj hname]
              exact ih true count
            · rw [listLoop_nomatch mv (some k) e rest count hcapf hj hname]
              exact ih false count
          | none =>
            cases hc : e.content with
            | some md =>
              have : listLoop none (some k) (e :: rest) false count =
                  md :: listLoop none (some k) rest false (count + 1) := by
                simp [listLoop, hcapf, hj, hc]
              rw [this]
              have := ih false (count + 1)
              simp only [List.length_cons]
              omega
            | none =>
              have : listLoop none (some k) (e :: rest) false count =
                  listLoop none (some k) rest false count := by
                simp [listLoop, hcapf, hj, hc]
              rw [this]
              exact ih false count
      · have hjf : isJsonFile e.name = false := by
          cases h : isJsonFile e.name
          · rfl
          · exact absurd h hj
        rw [listLoop_nonjson m (some k) e rest started count hcapf hjf]
        exact ih started count

theorem listLoop_started (m : Option String) (maxK : Option Nat) :
    ∀ (es : List DirEntry) (count : Nat),
      (∀ e ∈ es, isJsonFile e.name = true) →
      (∀ e ∈ es, e.content.isSome = true) →
      listLoop m maxK es true count =
        takeFrom maxK count (es.filterMap (fun e => e.content)) := by
  intro es
  induction es with
  | nil =>
    intro count _ _
    cases maxK <;> simp [listLoop_nil, takeFrom]
  | cons e rest ih =>
    intro count hj hp
    have hje : isJsonFile e.name = true := hj e (List.mem_cons_self e rest)
    have hpe : e.content.isSome = true := hp e (List.mem_cons_self e rest)
    have hjr : ∀ x ∈ rest, isJsonFile x.name = true :=
      fun x hx => hj x (List.mem_cons_of_mem e hx)
    have hpr : ∀ x ∈ rest, x.content.isSome = true :=
      fun x hx => hp x (List.mem_cons_of_mem e hx)
    obtain ⟨md, hmd⟩ := Option.isSome_iff_exists.mp hpe
    cases maxK with
    | none =>
      rw [listLoop_collect m none e rest count md rfl hje hmd, ih (count + 1) hjr hpr]
      simp [takeFrom, List.filterMap_cons, hmd]
    | some k =>
      by_cases hcap : k ≤ count
      · have hct : capReached (some k) count = true := by simp [capReached, hcap]
        rw [listLoop_cap m (some k) e rest true count hct]
        have : k - count = 0 := by omega
        simp [takeFrom, this]
      · have hcf : capReached (some k) count = false := by
          simp [capReached]; omega
        rw [listLoop_collect m (some k) e rest count md hcf hje hmd,
          ih (count + 1) hjr hpr]
        simp only [takeFrom, List.filterMap_cons, hmd]
        have h1 : k - count = (k - (count + 1)) + 1 := by omega
        rw [h1, List.take_succ_cons]

theorem listLoop_unmatched (mv : String) (maxK : Option Nat) :
    ∀ (es : List DirEntry) (count : Nat),
      (∀ e ∈ es, e.name ≠ mv) →
      listLoop (some mv) maxK es false count = [] := by
  intro es
  induction es with
  | nil => intro count _; rfl
  | cons e rest ih =>
    intro count h
    have hne : e.name ≠ mv := h e (List.mem_cons_self e rest)
    have hr : ∀ x ∈ rest, x.name ≠ mv := fun x hx => h x (List.mem_cons_of_mem e hx)
    by_cases hcap : capReached maxK count = true
    · exact listLoop_cap _ _ _ _ _ _ hcap
    · have hcf : capReached maxK count = false := by
        cases hh : capReached maxK count
        · rfl
        · exact absurd hh hcap
      by_cases hj : isJsonFile e.name = true
      · rw [listLoop_nomatch mv maxK e rest count hcf hj hne]
        exact ih count hr
      · have hjf : isJsonFile e.name = false := by
          cases hh : isJsonFile e.name
          · rfl
          · exact absurd hh hj
        rw [listLoop_nonjson _ _ _ _ _ _ hcf hjf]
        exact ih count hr

theorem listLoop_to_match (mv : String) (maxK : Option Nat) :
    ∀ (es : List DirEntry) (count : Nat),
      (∃ e ∈ es, isJsonFile e.name = true ∧ e.name = mv) →
      listLoop (some mv) maxK es false count =
        listLoop (some mv) maxK (afterName mv es) true count := by
  intro es
  induction es with
  | nil => intro count h; exact absurd h (by simp)
  | cons e rest ih =>
    intro count h
    by_cases hcap : capReached maxK count = true
    · rw [listLoop_cap _ _ _ _ _ _ hcap]
      cases han : afterName mv (e :: rest) with
      | nil => rfl
      | cons e2 r2 => rw [listLoop_cap _ _ _ _ _ _ hcap]
    · have hcf : capReached maxK count = false := by
        cases hh : capReached maxK count
        · rfl
        · exact absurd hh hcap
      by_cases hj : isJsonFile e.name = true
      · by_cases hname : e.name = mv
        · rw [listLoop_match mv maxK e rest count hcf hj hname]
          have : afterName mv (e :: rest) = rest := by
            subst hname
            simp [afterName, hj]
          rw [this]
        · rw [listLoop_nomatch mv maxK e rest count hcf hj hname]
          have han : afterName mv (e :: rest) = afterName mv rest := by
            simp [afterName, hname]
          rw [han]
          apply ih
          rcases h with ⟨x, hx, hxj, hxm⟩
          rcases List.mem_cons.mp hx with rfl | hx'
          · exact absurd hxm hname
          · exact ⟨x, hx', hxj, hxm⟩
      · have hjf : isJsonFile e.name = false := by
          cases hh : isJsonFile e.name
          · rfl
          · exact absurd hh hj
        rw [listLoop_nonjson _ _ _ _ _ _ hcf hjf]
        have han : afterName mv (e :: rest) = afterName mv rest := by
          simp [afterName, hjf]
        rw [han]
        apply ih
        rcases h with ⟨x, hx, hxj, hxm⟩
        rcases List.mem_cons.mp hx with rfl | hx'
        · exact absurd hxj (by simp [hjf])
        · exact ⟨x, hx', hxj, hxm⟩

theorem takeFrom_zero {α : Type} (maxK : Option Nat) (l : List α) :
    takeFrom maxK 0 l = takeCap maxK l := by
  cases maxK <;> simp [takeFrom, takeCap]

theorem afterName_subset (m : String) :
    ∀ (l : List DirEntry), ∀ x ∈ afterName m l, x ∈ l := by
  intro l
  induction l with
  | nil => intro x hx; exact absurd hx (by simp [afterName])
  | cons e rest ih =>
    intro x hx
    simp only [afterName] at hx
    split_ifs at hx with h
    · exact List.mem_cons_of_mem e hx
    · exact List.mem_cons_of_mem e (ih x hx)

theorem string_append_json_injective :
    Function.Injective (fun id : String => id ++ ".json") := by
  intro a b hab
  have h1 : a.toList ++ ".json".toList = b.toList ++ ".json".toList := by
    have := congrArg String.toList hab
    simpa using this
  have h2 : a.toList = b.toList := List.append_left_injective _ h1
  cases a
  cases b
  simp only [String.toList] at h2
  rw [h2]

theorem isJsonFile_append (id : String) (hs : idSafe id = true) :
    isJsonFile (id ++ ".json") = true := by
  simp only [idSafe, Bool.and_eq_true, Bool.not_eq_true', decide_eq_false_iff_not,
    List.all_eq_true] at hs
  obtain ⟨hne, hch⟩ := hs
  have htl : (id ++ ".json").toList = id.toList ++ ['.', 'j', 's', 'o', 'n'] := by
    simp
  have hrev : (id ++ ".json").toList.reverse =
      'n' :: 'o' :: 's' :: 'j' :: '.' :: id.toList.reverse := by
    rw [htl, List.reverse_append]
    rfl
  have hfn : fileNameRev (id ++ ".json") =
      'n' :: 'o' :: 's' :: 'j' :: '.' :: id.toList.reverse := by
    unfold fileNameRev
    rw [hrev]
    have hall : ∀ x ∈ id.toList.reverse, (!decide (x = '/')) = true := by
      intro x hx
      have := hch x (List.mem_reverse.mp hx)
      simp [this.1]
    have hts : List.takeWhile (fun c => !decide (c = '/')) id.toList.reverse
        = id.toList.reverse := List.takeWhile_eq_self_iff.mpr hall
    simp only [List.takeWhile_cons, String.toList] at hts ⊢
    simp [hts]
  unfold isJsonFile
  rw [hfn]
  have hne' : id.toList.reverse ≠ [] := by
    simpa using hne
  cases hr : id.toList.reverse with
  | nil => exact absurd hr hne'
  | cons r rs => simp [revExt]

theorem mem_dirEntries_json (s : Store)
    (hsafe : ∀ p ∈ s.sidecars, idSafe p.1 = true) :
    ∀ e ∈ dirEntries s, isJsonFile e.name = true := by
  intro e he
  simp only [dirEntries, List.mem_map] at he
  obtain ⟨p, hp, rfl⟩ := he
  exact isJsonFile_append p.1 (hsafe p hp)

theorem mem_dirEntries_some (s : Store) :
    ∀ e ∈ dirEntries s, e.content.isSome = true := by
  intro e he
  simp only [dirEntries, List.mem_map] at he
  obtain ⟨p, hp, rfl⟩ := he
  rfl

/-- C8: confirmed.  Under consistent naming (distinct ids of the hex-digit
shape, so that `<id>.json` parses as a `.json` file), the paginated listing
enumerates the sidecar files in lexicographic file-name order: with no
marker it returns the first `max_keys` sidecars of the sorted directory; with
a marker naming the sidecar file of `mid` it returns the first `max_keys`
entries strictly after the marker's match in that order; and at most
`max_keys` entries are ever returned. -/
theorem c8_pagination (s : Store) (maxK : Option Nat) (mid : String)
    (hsafe : ∀ p ∈ s.sidecars, idSafe p.1 = true)
    (hmark : mid ∈ s.sidecars.map Prod.fst) :
    List.Sorted eLe (sortEntries (dirEntries s)) ∧
    list_object_metadata_with_pagination s maxK none =
      takeCap maxK ((sortEntries (dirEntries s)).filterMap (fun e => e.content)) ∧
    list_object_metadata_with_pagination s maxK (some (mid ++ ".json")) =
      takeCap maxK
        ((afterName (mid ++ ".json") (sortEntries (dirEntries s))).filterMap
          (fun e => e.content)) ∧
    (∀ k mk, (list_object_metadata_with_pagination s (some k) mk).length ≤ k) := by
  have hperm := sortEntries_perm (dirEntries s)
  have hj : ∀ e ∈ sortEntries (dirEntries s), isJsonFile e.name = true :=
    fun e he => mem_dirEntries_json s hsafe e (hperm.mem_iff.mp he)
  have hp : ∀ e ∈ sortEntries (dirEntries s), e.content.isSome = true :=
    fun e he => mem_dirEntries_some s e (hperm.mem_iff.mp he)
  refine ⟨sortEntries_sorted _, ?_, ?_, ?_⟩
  · show listLoop none maxK (sortEntries (dirEntries s)) true 0 = _
    rw [listLoop_started none maxK _ 0 hj hp, takeFrom_zero]
  · show listLoop (some (mid ++ ".json")) maxK (sortEntries (dirEntries s)) false 0 = _
    have hmem : ∃ e ∈ sortEntries (dirEntries s),
        isJsonFile e.name = true ∧ e.name = mid ++ ".json" := by
      simp only [List.mem_map] at hmark
      obtain ⟨p, hp', rfl⟩ := hmark
      refine ⟨⟨p.1 ++ ".json", some p.2⟩, ?_, ?_, rfl⟩
      · exact hperm.mem_iff.mpr (List.mem_map.mpr ⟨p, hp', rfl⟩)
      · exact isJsonFile_append p.1 (hsafe p hp')
    rw [listLoop_to_match _ maxK _ 0 hmem]
    have hja : ∀ e ∈ afterName (mid ++ ".json") (sortEntries (dirEntries s)),
        isJsonFile e.name = true :=
      fun e he => hj e (afterName_subset _ _ e he)
    have hpa : ∀ e ∈ afterName (mid ++ ".json") (sortEntries (dirEntries s)),
        e.content.isSome = true :=
      fun e he => hp e (afterName_subset _ _ e he)
    rw [listLoop_started _ maxK _ 0 hja hpa, takeFrom_zero]
  · intro k mk
    cases mk with
    | none =>
      have := listLoop_length none k (sortEntries (dirEntries s)) true 0
      simpa using this
    | some mv =>
      have := listLoop_length (some mv) k (sortEntries (dirEntries s)) false 0
      simpa using this

theorem c8_pagination_witness :
    List.Sorted eLe (sortEntries (dirEntries c8s)) ∧
    list_object_metadata_with_pagination c8s (some 5) none =
      takeCap (some 5) ((sortEntries (dirEntries c8s)).filterMap (fun e => e.content)) ∧
    list_object_metadata_with_pagination c8s (some 5) (some ("A" ++ ".json")) =
      takeCap (some 5)
        ((afterName ("A" ++ ".json") (sortEntries (dirEntries c8s))).filterMap
          (fun e => e.content)) ∧
    (∀ k mk, (list_object_metadata_with_pagination c8s (some k) mk).length ≤ k) :=
  c8_pagination c8s (some 5) "A" (by decide) (by decide)

/-- C10: confirmed.  For every non-empty marker that is not the file name of
any sidecar in the bucket, the paginated listing returns the empty list,
whatever `max_keys` is and however many sidecars exist: the loop never
starts collecting because the marker never matches. -/
theorem c10_unmatched_marker (s : Store) (maxK : Option Nat) (m : String)
    (hm0 : m ≠ "") (hm : ∀ p ∈ s.sidecars, p.1 ++ ".json" ≠ m) :
    list_object_metadata_with_pagination s maxK (some m) = [] := by
  show listLoop (some m) maxK (sortEntries (dirEntries s)) false 0 = []
  apply listLoop_unmatched
  intro e he
  have he' : e ∈ dirEntries s := (sortEntries_perm _).mem_iff.mp he
  simp only [dirEntries, List.mem_map] at he'
  obtain ⟨p, hp, rfl⟩ := he'
  exact hm p hp

theorem c10_unmatched_marker_witness :
    ("Zmarker.json" ≠ "") ∧
    list_object_metadata_with_pagination c10s (some 7) (some "Zmarker.json") = [] :=
  ⟨by decide, c10_unmatched_marker c10s (some 7) "Zmarker.json" (by decide) (by decide)⟩

theorem lookupA_mem {α : Type} :
    ∀ (l : List (String × α)) (k : String) (v : α),
      lookupA l k = some v → (k, v) ∈ l := by
  intro l
  induction l with
  | nil => intro k v h; cases h
  | cons p rest ih =>
    intro k v h
    by_cases hk : p.1 = k
    · have : lookupA (p :: rest) k = some p.2 := by
        cases p
        simp_all [lookupA]
      rw [this] at h
      cases h
      subst hk
      exact List.mem_cons_self p rest
    · have : lookupA (p :: rest) k = lookupA rest k := by
        cases p
        simp_all [lookupA]
      rw [this] at h
      exact List.mem_cons_of_mem p (ih k v h)

theorem lookupA_of_mem {α : Type} :
    ∀ (l : List (String × α)) (k : String) (v : α),
      (l.map Prod.fst).Nodup → (k, v) ∈ l → lookupA l k = some v := by
  intro l
  induction l with
  | nil => intro k v _ h; cases h
  | cons p rest ih =>
    intro k v hnd h
    simp only [List.map_cons, List.nodup_cons] at hnd
    rcases List.mem_cons.mp h with rfl | h'
    · simp [lookupA]
    · have hk : p.1 ≠ k := by
        intro hc
        exact hnd.1 (hc ▸ (List.mem_map.mpr ⟨(k, v), h', rfl⟩))
      cases p
      simp only [lookupA]
      rw [if_neg hk]
      exact ih k v hnd.2 h'

theorem lookupA_insert_self {α : Type} :
    ∀ (l : List (String × α)) (k : String) (v : α),
      lookupA (insertA l k v) k = some v := by
  intro l
  induction l with
  | nil => intro k v; simp [insertA, lookupA]
  | cons p rest ih =>
    intro k v
    cases p with
    | mk pk pv =>
      by_cases hk : pk = k
      · simp [insertA, hk, lookupA]
      · simp only [insertA, hk, if_false, lookupA]
        exact ih k v

theorem lookupA_insert_ne {α : Type} :
    ∀ (l : List (String × α)) (k k' : String) (v : α), k ≠ k' →
      lookupA (insertA l k v) k' = lookupA l k' := by
  intro l
  induction l with
  | nil => intro k k' v hne; simp [insertA, lookupA, hne]
  | cons p rest ih =>
    intro k k' v hne
    cases p with
    | mk pk pv =>
      by_cases hk : pk = k
      · subst hk
        simp only [insertA, if_pos rfl, lookupA]
        rw [if_neg hne, if_neg hne]
      · simp only [insertA, hk, if_false, lookupA]
        by_cases hk' : pk = k'
        · simp [hk']
        · rw [if_neg hk', if_neg hk']
          exact ih k k' v hne

theorem find_objects_etag_sound (s : Store) (hwf : WF s) (etag : String) :
    ∀ id ∈ find_objects_by_etag s etag,
      onSome (lookupA s.sidecars id) (fun m => m.etag = etag) := by
  intro id hid
  unfold find_objects_by_etag at hid
  cases hl : lookupA s.etagIndex etag with
  | none => rw [hl] at hid; cases hid
  | some ids =>
    rw [hl] at hid
    exact hwf.2.2.2.2.2.1 (etag, ids) (lookupA_mem _ _ _ hl) id hid

theorem find_objects_etag_complete (s : Store) (hwf : WF s) :
    ∀ id m, lookupA s.sidecars id = some m → id ∈ find_objects_by_etag s m.etag := by
  intro id m hm
  exact hwf.2.2.2.2.2.2 (id, m) (lookupA_mem _ _ _ hm)

theorem index_to_sidecar (s : Store) (hwf : WF s) :
    ∀ k id, lookupA s.objectIndex k = some id →
      onSome (lookupA s.sidecars id) (fun m => m.key = k) := by
  intro k id h
  exact hwf.2.2.2.1 (k, id) (lookupA_mem _ _ _ h)

theorem sidecar_to_index (s : Store) (hwf : WF s) :
    ∀ id m, lookupA s.sidecars id = some m →
      lookupA s.objectIndex m.key = some id := by
  intro id m hm
  exact hwf.2.2.2.2.1 (id, m) (lookupA_mem _ _ _ hm)

theorem fdck_eq (s : Store) (etag key : String) :
    find_duplicate_content_keys s etag (some key) =
      (find_objects_by_etag s etag).filterMap (fun objId =>
        match lookupA s.sidecars objId with
        | some m => if m.key ≠ key then some m.key else none
        | none => none) := by
  unfold find_duplicate_content_keys
  have hgen : ∀ (ids : List String) (init : List String),
      ids.foldl
        (fun acc object_id =>
          match load_object_metadata s object_id with
          | some m =>
            match some key with
            | some ex => if m.key ≠ ex then acc ++ [m.key] else acc
            | none => acc ++ [m.key]
          | none => acc)
        init
      = init ++ ids.filterMap (fun objId =>
          match lookupA s.sidecars objId with
          | some m => if m.key ≠ key then some m.key else none
          | none => none) := by
    intro ids
    induction ids with
    | nil => intro init; simp
    | cons i rest ih =>
      intro init
      simp only [List.foldl_cons, List.filterMap_cons]
      cases hm : load_object_metadata s i with
      | none =>
        unfold load_object_metadata at hm
        simp only [hm]
        exact ih init
      | some m =>
        unfold load_object_metadata at hm
        simp only [hm]
        by_cases hk : m.key ≠ key
        · simp only [hk, if_true, if_pos hk]
          rw [ih (init ++ [m.key])]
          simp
        · simp only [hk, if_false, if_neg hk]
          exact ih init
  rw [hgen]
  simp

theorem fdck_mem (s : Store) (etag key k' : String) :
    k' ∈ find_duplicate_content_keys s etag (some key) ↔
      (k' ≠ key ∧ ∃ objId ∈ find_objects_by_etag s etag,
        ∃ m, lookupA s.sidecars objId = some m ∧ m.key = k') := by
  rw [fdck_eq]
  simp only [List.mem_filterMap]
  constructor
  · rintro ⟨a, ha, hf⟩
    cases hm : lookupA s.sidecars a with
    | none => rw [hm] at hf; cases hf
    | some m =>
      rw [hm] at hf
      simp only [] at hf
      by_cases hk : m.key ≠ key
      · rw [if_pos hk] at hf
        cases hf
        exact ⟨hk, a, ha, m, hm, rfl⟩
      · rw [if_neg hk] at hf; cases hf
  · rintro ⟨hk, a, ha, m, hm, rfl⟩
    refine ⟨a, ha, ?_⟩
    rw [hm]
    simp [hk]

theorem fdck_ne_nil_iff (s : Store) (hwf : WF s) (etag key : String) :
    find_duplicate_content_keys s etag (some key) ≠ [] ↔ OtherHolds s key etag := by
  constructor
  · intro hne
    cases hd : find_duplicate_content_keys s etag (some key) with
    | nil => exact absurd hd hne
    | cons k' rest =>
      have hk' : k' ∈ find_duplicate_content_keys s etag (some key) := by
        rw [hd]; exact List.mem_cons_self k' rest
      rw [fdck_mem] at hk'
      obtain ⟨hkne, objId, hobj, m, hm, hkey⟩ := hk'
      have hsound := find_objects_etag_sound s hwf etag objId hobj
      rw [hm] at hsound
      exact ⟨(objId, m), lookupA_mem _ _ _ hm, by rw [hkey]; exact hkne, hsound⟩
  · rintro ⟨p, hp, hne, hetag⟩
    have hlk : lookupA s.sidecars p.1 = some p.2 :=
      lookupA_of_mem _ _ _ hwf.2.1 (by cases p; exact hp)
    have hin : p.1 ∈ find_objects_by_etag s etag := by
      have := find_objects_etag_complete s hwf p.1 p.2 hlk
      rwa [hetag] at this
    have : p.2.key ∈ find_duplicate_content_keys s etag (some key) := by
      rw [fdck_mem]
      exact ⟨hne, p.1, hin, p.2, hlk, rfl⟩
    intro hnil
    rw [hnil] at this
    cases this

theorem find_objects_nil (s : Store) (hwf : WF s) (key etag : String)
    (hno : ¬ OtherHolds s key etag) (hns : ¬ SameHolds s key etag) :
    find_objects_by_etag s etag = [] := by
  cases hfo : find_objects_by_etag s etag with
  | nil => rfl
  | cons fid rest =>
    exfalso
    have hfid : fid ∈ find_objects_by_etag s etag := by
      rw [hfo]; exact List.mem_cons_self fid rest
    have hsound := find_objects_etag_sound s hwf etag fid hfid
    cases hm : lookupA s.sidecars fid with
    | none => rw [hm] at hsound; exact hsound
    | some m =>
      rw [hm] at hsound
      by_cases hk : m.key = key
      · exact hns ⟨(fid, m), lookupA_mem _ _ _ hm, hk, hsound⟩
      · exact hno ⟨(fid, m), lookupA_mem _ _ _ hm, hk, hsound⟩

theorem put_object_fresh (oid : String → String) (md5 : List Nat → String)
    (b : String) (now : Nat) (vid : String) (s : Store) (key : String)
    (data : List Nat) (ct : String) (um : List (String × String))
    (hkey : validate_object_key key = .ok ())
    (hfo : find_objects_by_etag s (generate_etag md5 data) = [])
    (hfast : ∀ exId em, lookupA s.objectIndex key = some exId →
      lookupA s.sidecars exId = some em → em.etag ≠ generate_etag md5 data) :
    put_object oid md5 b true now vid s key data ct um =
      .ok (freshResult oid b now s key data
        (if ct = "application/octet-stream" then get_mime_type key else ct)
        (generate_etag md5 data) um) := by
  unfold put_object put_object_with_versioning
  rw [hkey]
  have hex : is_etag_exists s (generate_etag md5 data) = false := by
    simp [is_etag_exists, hfo]
  simp only [hex, Bool.false_eq_true, if_false, reduceIte]
  cases hIdx : lookupA s.objectIndex key with
  | none =>
    simp only [find_object_id_by_key, hIdx]
    simp [freshResult, save_object_metadata, add_object_to_index, add_etag_to_index,
      ObjectMetadata.ofObject, Object.new]
  | some exId =>
    simp only [find_object_id_by_key, hIdx, load_object_metadata]
    cases hEx : lookupA s.sidecars exId with
    | none =>
      simp only [hEx]
      simp [freshResult, save_object_metadata, add_object_to_index, add_etag_to_index,
      ObjectMetadata.ofObject, Object.new]
    | some em =>
      simp only [hEx]
      rw [if_neg (hfast exId em hIdx hEx)]
      simp [freshResult, save_object_metadata, add_object_to_index, add_etag_to_index,
      ObjectMetadata.ofObject, Object.new]

theorem put_object_samekey_dup (oid : String → String) (md5 : List Nat → String)
    (b : String) (now : Nat) (vid : String) (s : Store) (key : String)
    (data : List Nat) (ct : String) (um : List (String × String))
    (hwf : WF s) (hkey : validate_object_key key = .ok ())
    (hno : ¬ OtherHolds s key (generate_etag md5 data))
    (hsame : SameHolds s key (generate_etag md5 data)) :
    put_object oid md5 b true now vid s key data ct um =
      .error (.contentExistsKey key (generate_etag md5 data)) := by
  obtain ⟨p, hp, hkeq, hetag⟩ := hsame
  have hlk : lookupA s.sidecars p.1 = some p.2 :=
    lookupA_of_mem _ _ _ hwf.2.1 (by cases p; exact hp)
  have hin : p.1 ∈ find_objects_by_etag s (generate_etag md5 data) := by
    have := find_objects_etag_complete s hwf p.1 p.2 hlk
    rwa [hetag] at this
  cases hfo : find_objects_by_etag s (generate_etag md5 data) with
  | nil => rw [hfo] at hin; cases hin
  | cons fid rest =>
    have hfid : fid ∈ find_objects_by_etag s (generate_etag md5 data) := by
      rw [hfo]; exact List.mem_cons_self _ _
    have hsound := find_objects_etag_sound s hwf _ fid hfid
    cases hmf : lookupA s.sidecars fid with
    | none =>
      rw [hmf] at hsound
      exact absurd hsound (fun h => h)
    | some em =>
      rw [hmf] at hsound
      have hemkey : em.key = key := by
        by_contra hne
        exact hno ⟨(fid, em), lookupA_mem _ _ _ hmf, hne, hsound⟩
      have hex : is_etag_exists s (generate_etag md5 data) = true := by
        simp [is_etag_exists, hfo]
      unfold put_object put_object_with_versioning
      rw [hkey]
      simp only [hex, hfo, load_object_metadata, hmf, if_true, List.isEmpty_cons,
        Bool.false_eq_true, if_false, reduceIte, hemkey]
      rfl

/-- C5 (amended): characterisation of the `Reject` put on a consistent store
with a valid key in an existing bucket.  (1) It fails with the
`DuplicateContent` error (`contentExistsKeys`) exactly when some key other
than the one being put holds an object with this etag.  (2) When no other key
holds the etag but the key itself already holds this content, it fails with
the inner `contentExistsKey` error instead of succeeding.  (3) When the etag
is absent from the bucket altogether, it succeeds as a fresh standalone
write. -/
theorem c5_reject_characterization (oid : String → String) (md5 : List Nat → String)
    (b : String) (now : Nat) (vid : String) (s : Store) (key : String)
    (data : List Nat) (ct : String) (um : List (String × String))
    (hwf : WF s) (hkey : validate_object_key key = .ok ()) :
    ((∃ ks, put_object_with_deduplication oid md5 b true now vid s key data ct um .Reject
        = .error (.contentExistsKeys ks)) ↔
      OtherHolds s key (generate_etag md5 data)) ∧
    (¬ OtherHolds s key (generate_etag md5 data) →
      SameHolds s key (generate_etag md5 data) →
      put_object_with_deduplication oid md5 b true now vid s key data ct um .Reject =
        .error (.contentExistsKey key (generate_etag md5 data))) ∧
    (¬ OtherHolds s key (generate_etag md5 data) →
      ¬ SameHolds s key (generate_etag md5 data) →
      put_object_with_deduplication oid md5 b true now vid s key data ct um .Reject =
        .ok (freshResult oid b now s key data
          (if ct = "application/octet-stream" then get_mime_type key else ct)
          (generate_etag md5 data) um)) := by
  cases hdup : find_duplicate_content_keys s (generate_etag md5 data) (some key) with
  | cons d ds =>
    have hOther : OtherHolds s key (generate_etag md5 data) :=
      (fdck_ne_nil_iff s hwf _ key).mp (by rw [hdup]; simp)
    have hres : put_object_with_deduplication oid md5 b true now vid s key data ct um
        .Reject = .error (.contentExistsKeys (d :: ds)) := by
      unfold put_object_with_deduplication
      simp only [hdup, List.isEmpty_cons, Bool.not_false, if_true]
    refine ⟨⟨fun _ => hOther, fun _ => ⟨d :: ds, hres⟩⟩, ?_, ?_⟩
    · intro hno _; exact absurd hOther hno
    · intro hno _; exact absurd hOther hno
  | nil =>
    have hnoOther : ¬ OtherHolds s key (generate_etag md5 data) := by
      intro h
      exact (fdck_ne_nil_iff s hwf _ key).mpr h hdup
    have hput : put_object_with_deduplication oid md5 b true now vid s key data ct um
        .Reject = put_object oid md5 b true now vid s key data ct um := by
      unfold put_object_with_deduplication
      simp only [hdup, List.isEmpty_nil, Bool.not_true, Bool.false_eq_true, if_false]
    refine ⟨⟨?_, fun h => absurd h hnoOther⟩, ?_, ?_⟩
    · rintro ⟨ks, hks⟩
      exfalso
      rw [hput] at hks
      by_cases hsame : SameHolds s key (generate_etag md5 data)
      · rw [put_object_samekey_dup oid md5 b now vid s key data ct um hwf hkey
          hnoOther hsame] at hks
        cases hks
      · rw [put_object_fresh oid md5 b now vid s key data ct um hkey
          (find_objects_nil s hwf key _ hnoOther hsame) ?_] at hks
        · cases hks
        · intro exId em hIdx hEx hetag
          have := index_to_sidecar s hwf key exId hIdx
          rw [hEx] at this
          exact hsame ⟨(exId, em), lookupA_mem _ _ _ hEx, this, hetag⟩
    · intro _ hsame
      rw [hput]
      exact put_object_samekey_dup oid md5 b now vid s key data ct um hwf hkey
        hnoOther hsame
    · intro _ hnsame
      rw [hput]
      apply put_object_fresh oid md5 b now vid s key data ct um hkey
        (find_objects_nil s hwf key _ hnoOther hnsame)
      intro exId em hIdx hEx hetag
      have := index_to_sidecar s hwf key exId hIdx
      rw [hEx] at this
      exact hnsame ⟨(exId, em), lookupA_mem _ _ _ hEx, this, hetag⟩

theorem selectStep_fold_inv (s : Store) (key : String) :
    ∀ (dup : List String) (acc : Option String × Nat),
      (∀ dk ∈ dup, dk ≠ key ∧ ∃ id m, lookupA s.objectIndex dk = some id ∧
          lookupA s.sidecars id = some m ∧ m.key = dk) →
      (∀ o, acc.1 = some o → ∃ hm, lookupA s.sidecars o = some hm ∧ hm.key ≠ key) →
      ∀ o, (dup.foldl (selectStep s) acc).1 = some o →
        ∃ hm, lookupA s.sidecars o = some hm ∧ hm.key ≠ key := by
  intro dup
  induction dup with
  | nil => intro acc _ hacc o h; exact hacc o h
  | cons dk rest ih =>
    intro acc hdup hacc o h
    simp only [List.foldl_cons] at h
    refine ih (selectStep s acc dk) (fun x hx => hdup x (List.mem_cons_of_mem dk hx))
      ?_ o h
    intro o' ho'
    unfold selectStep at ho'
    cases hIdx : find_object_id_by_key s dk with
    | none =>
      rw [hIdx] at ho'
      exact hacc o' ho'
    | some objId =>
      rw [hIdx] at ho'
      simp only [] at ho'
      cases hMl : load_object_metadata s objId with
      | none =>
        rw [hMl] at ho'
        exact hacc o' ho'
      | some m =>
        rw [hMl] at ho'
        simp only [] at ho'
        split_ifs at ho' with hcur
        · simp only [] at ho'
          cases ho'
          obtain ⟨hne, id2, m2, hidx2, hsc2, hkm2⟩ := hdup dk (List.mem_cons_self dk rest)
          unfold find_object_id_by_key at hIdx
          rw [hIdx] at hidx2
          cases hidx2
          unfold load_object_metadata at hMl
          rw [hMl] at hsc2
          cases hsc2
          exact ⟨m, hMl, by rw [hkm2]; exact hne⟩
        · exact hacc o' ho'

theorem select_data_holder_ok (s : Store) (key fd : String) (rest : List String)
    (hdup : ∀ dk ∈ fd :: rest, dk ≠ key ∧ ∃ id m, lookupA s.objectIndex dk = some id ∧
        lookupA s.sidecars id = some m ∧ m.key = dk) :
    ∃ hid hm, select_data_holder s (fd :: rest) fd = .ok hid ∧
      lookupA s.sidecars hid = some hm ∧ hm.key ≠ key := by
  unfold select_data_holder
  cases hbest : ((fd :: rest).foldl (selectStep s) ((none : Option String), 0)).1 with
  | some h =>
    obtain ⟨hm, hlk, hk⟩ := selectStep_fold_inv s key (fd :: rest) ((none : Option String), 0)
      hdup (fun o ho => by cases ho) h hbest
    exact ⟨h, hm, by simp only [hbest], hlk, hk⟩
  | none =>
    obtain ⟨hne, id, m, hidx, hsc, hkm⟩ := hdup fd (List.mem_cons_self fd rest)
    refine ⟨id, m, ?_, hsc, by rw [hkm]; exact hne⟩
    simp only [hbest, find_object_id_by_key, hidx]

/-- C3 (amended): a `Reference` put into a consistent store in which some
other key already holds an object with the same etag: the selection of
services.rs:794-831 yields a holder id with a sidecar; the put persists that
sidecar with its reference count incremented by one *modulo `2^32`* (the
`u32` addition of services.rs:835 wraps at `u32::MAX`, so below the maximum
this is an increment by exactly 1), writes a new sidecar for the key with
`data_holder_id` set to the selected id and reference count 0, registers the
new id in both indexes, and writes no data file. -/
theorem c3_reference_put (oid : String → String) (md5 : List Nat → String)
    (b : String) (now : Nat) (vid : String) (s : Store) (key : String)
    (data : List Nat) (ct : String) (um : List (String × String))
    (hwf : WF s)
    (hother : OtherHolds s key (generate_etag md5 data))
    (hsep : ∀ p ∈ s.sidecars, p.2.key ≠ key → p.1 ≠ oid key) :
    ∃ hid hm,
      lookupA s.sidecars hid = some hm ∧ hm.key ≠ key ∧
      (∃ fd rest,
        find_duplicate_content_keys s (generate_etag md5 data) (some key) = fd :: rest ∧
        select_data_holder s (fd :: rest) fd = .ok hid) ∧
      put_object_with_deduplication oid md5 b true now vid s key data ct um .Reference =
        .ok ({ objectIndex := insertA s.objectIndex key (oid key),
               etagIndex := addEtagEntry s.etagIndex (generate_etag md5 data) (oid key),
               sidecars := insertA
                 (insertA s.sidecars hid
                   { hm with reference_count := (hm.reference_count + 1) % 4294967296 })
                 (oid key)
                 { ObjectMetadata.ofObject
                     (Object.new key b data.length ct (generate_etag md5 data) um now) with
                     data_holder_id := some hid, reference_count := 0 },
               dataFiles := s.dataFiles },
             Object.new key b data.length ct (generate_etag md5 data) um now) ∧
      lookupA (insertA
          (insertA s.sidecars hid
            { hm with reference_count := (hm.reference_count + 1) % 4294967296 })
          (oid key)
          { ObjectMetadata.ofObject
              (Object.new key b data.length ct (generate_etag md5 data) um now) with
              data_holder_id := some hid, reference_count := 0 }) hid =
        some { hm with reference_count := (hm.reference_count + 1) % 4294967296 } := by
  cases hdup : find_duplicate_content_keys s (generate_etag md5 data) (some key) with
  | nil =>
    exact absurd ((fdck_ne_nil_iff s hwf _ key).mpr hother hdup) (fun h => h)
  | cons fd rest =>
    have hdupAll : ∀ dk ∈ fd :: rest, dk ≠ key ∧ ∃ id m,
        lookupA s.objectIndex dk = some id ∧ lookupA s.sidecars id = some m ∧
        m.key = dk := by
      intro dk hdk
      have hdk' : dk ∈ find_duplicate_content_keys s (generate_etag md5 data) (some key) := by
        rw [hdup]; exact hdk
      rw [fdck_mem] at hdk'
      obtain ⟨hne, objId, hobj, m, hm, hkm⟩ := hdk'
      refine ⟨hne, objId, m, ?_, hm, hkm⟩
      have := sidecar_to_index s hwf objId m hm
      rwa [hkm] at this
    obtain ⟨hid, hm, hsel, hlk, hkmne⟩ := select_data_holder_ok s key fd rest hdupAll
    have hidne : hid ≠ oid key := hsep (hid, hm) (lookupA_mem _ _ _ hlk) hkmne
    refine ⟨hid, hm, hlk, hkmne, ⟨fd, rest, rfl, hsel⟩, ?_, ?_⟩
    · unfold put_object_with_deduplication
      simp only [hdup, hsel, load_object_metadata, hlk, save_object_metadata,
        add_object_to_index, add_etag_to_index]
    · rw [lookupA_insert_ne _ _ _ _ (fun h => hidne h.symm), lookupA_insert_self]

theorem c5_reject_characterization_witness :
    OtherHolds c5wStore "k2" (generate_etag md5C5 [9]) ∧
    (∃ ks, put_object_with_deduplication oidI md5C5 "b" true 1 "v" c5wStore "k2" [9]
        "text/plain" [] .Reject = .error (.contentExistsKeys ks)) :=
  ⟨by decide,
   ((c5_reject_characterization oidI md5C5 "b" 1 "v" c5wStore "k2" [9] "text/plain" []
      (by decide) (by decide)).1).mpr (by decide)⟩

theorem c3_reference_put_witness :
    ∃ hid hm,
      lookupA c3wStore.sidecars hid = some hm ∧ hm.key ≠ "k2" ∧
      (∃ fd rest,
        find_duplicate_content_keys c3wStore (generate_etag md5C3 [9]) (some "k2") =
          fd :: rest ∧
        select_data_holder c3wStore (fd :: rest) fd = .ok hid) ∧
      put_object_with_deduplication oidI md5C3 "b" true 1 "v" c3wStore "k2" [9]
          "text/plain" [] .Reference =
        .ok ({ objectIndex := insertA c3wStore.objectIndex "k2" (oidI "k2"),
               etagIndex := addEtagEntry c3wStore.etagIndex (generate_etag md5C3 [9])
                 (oidI "k2"),
               sidecars := insertA
                 (insertA c3wStore.sidecars hid
                   { hm with reference_count := (hm.reference_count + 1) % 4294967296 })
                 (oidI "k2")
                 { ObjectMetadata.ofObject
                     (Object.new "k2" "b" 1 "text/plain" (generate_etag md5C3 [9]) [] 1) with
                     data_holder_id := some hid, reference_count := 0 },
               dataFiles := c3wStore.dataFiles },
             Object.new "k2" "b" 1 "text/plain" (generate_etag md5C3 [9]) [] 1) ∧
      lookupA (insertA
          (insertA c3wStore.sidecars hid
            { hm with reference_count := (hm.reference_count + 1) % 4294967296 })
          (oidI "k2")
          { ObjectMetadata.ofObject
              (Object.new "k2" "b" 1 "text/plain" (generate_etag md5C3 [9]) [] 1) with
              data_holder_id := some hid, reference_count := 0 }) hid =
        some { hm with reference_count := (hm.reference_count + 1) % 4294967296 } :=
  c3_reference_put oidI md5C3 "b" 1 "v" c3wStore "k2" [9] "text/plain" []
    (by decide) (by decide) (by decide)

/-- C3: counterexample to the claim.  At a holder whose `reference_count` is
`u32::MAX` (4294967295) — a sidecar state `serde` accepts — a `Reference` put
of matching content under another key does not increment the count by
exactly 1: the `u32` addition of services.rs:835 wraps, and the persisted
holder count is 0. -/
theorem c3_refcount_wrap_counterexample :
    c3xMeta.reference_count = 4294967295 ∧
    c3xResult = .ok (c3xFinal, Object.new "k2" "b" 1 "text/plain" "\"Z\"" [] 1) ∧
    (lookupA c3xFinal.sidecars "A").map (fun m => m.reference_count) = some 0 ∧
    (0 : Nat) ≠ 4294967295 + 1 := by
  decide
